import Mathlib

/-!
Verification development for the catalog manager scripts
(src/catalog/scripts/: metrics_collector.py, weekly_reporter.py,
deployer.py, project_profiler.py).

The Python code is shallowly embedded: pure computations become Lean
functions, filesystem state becomes explicit maps passed through the
functions, timestamps become integers (seconds), and Python floats are
modelled by rationals with an explicit round-half-even rounding function
matching the behaviour of the builtin round on exact decimal values.
-/

/-- Round half to even, the tie-breaking rule of the Python builtin round. -/
def round_half_even (q : ℚ) : ℤ :=
  if q - ⌊q⌋ < 1/2 then ⌊q⌋
  else if 1/2 < q - ⌊q⌋ then ⌊q⌋ + 1
  else if ⌊q⌋ % 2 = 0 then ⌊q⌋ else ⌊q⌋ + 1

/-- Python round(q, 1) on rationals. -/
def py_round1 (q : ℚ) : ℚ := (round_half_even (10 * q) : ℚ) / 10

/-- Python round(q, 2) on rationals. -/
def py_round2 (q : ℚ) : ℚ := (round_half_even (100 * q) : ℚ) / 100

/-- One parsed record of the feedback log (metrics_collector.py log_feedback
writes the fields ts, agent, task, outcome, iterations, and optionally
reason and tokens).  Timestamps are seconds as integers. -/
structure FeedbackEntry where
  ts : Int
  agent : String
  task : String
  outcome : String
  iterations : Nat
  reason : Option String
  tokens : Option Nat
deriving DecidableEq, Repr

/-- One physical line of feedback.jsonl as seen by the readers: blank
(only whitespace, skipped before parsing), a line that fails to parse as
a record, or a well-formed record. -/
inductive LogLine where
  | blank
  | corrupt
  | entry (e : FeedbackEntry)
deriving DecidableEq, Repr

/-- The window cutoff: datetime.now() - timedelta(days=days), in seconds. -/
def cutoff_of (now days : Int) : Int := now - days * 86400

namespace MetricsCollector

/-- metrics_collector.load_feedback: reads the log line by line; blank
lines are skipped, a kept entry must satisfy entry_time > cutoff.  There
is no try/except around json.loads, so a line that fails to parse raises
and the whole read aborts; this is modelled by the error result. -/
def load_feedback (now days : Int) : List LogLine → Except String (List FeedbackEntry)
  | [] => .ok []
  | .blank :: rest => load_feedback now days rest
  | .corrupt :: _ => .error "json.JSONDecodeError"
  | .entry e :: rest =>
    match load_feedback now days rest with
    | .error m => .error m
    | .ok es => .ok (if cutoff_of now days < e.ts then e :: es else es)

/-- Per-agent counters accumulated by calculate_stats before rates are
attached (the defaultdict value shape). -/
structure RawStats where
  total : Nat
  accepted : Nat
  rejected : Nat
  iterations : Nat
  total_iterations : Nat
  reasons : String → Nat

def initRaw : RawStats := ⟨0, 0, 0, 0, 0, fun _ => 0⟩

/-- Increment a reason counter (defaultdict(int) update). -/
def bump (f : String → Nat) (s : String) : String → Nat :=
  fun x => if x = s then f x + 1 else f x

/-- The reason-counter update of the rejected branch: entry.get("reason")
is truthy exactly when a reason is present and not the empty string. -/
def reason_upd (f : String → Nat) (reason : Option String) : String → Nat :=
  match reason with
  | some s => if s = "" then f else bump f s
  | none => f

/-- The loop body of calculate_stats for one entry.  The reason counter is
only touched in the rejected branch. -/
def upd_raw (r : RawStats) (e : FeedbackEntry) : RawStats :=
  let base : RawStats :=
    { r with total := r.total + 1, total_iterations := r.total_iterations + e.iterations }
  if e.outcome = "accepted" then { base with accepted := base.accepted + 1 }
  else if e.outcome = "rejected" then
    { base with rejected := base.rejected + 1, reasons := reason_upd base.reasons e.reason }
  else if e.outcome = "iteration" then { base with iterations := base.iterations + 1 }
  else base

/-- Grouping step: agent_stats[entry["agent"]] is updated in place when the
key exists, otherwise a fresh default value is updated and inserted (the
defaultdict behaviour, insertion order preserved). -/
def add_entry (m : List (String × RawStats)) (e : FeedbackEntry) : List (String × RawStats) :=
  if e.agent ∈ m.map Prod.fst then
    m.map (fun p => if p.1 = e.agent then (p.1, upd_raw p.2 e) else p)
  else m ++ [(e.agent, upd_raw initRaw e)]

/-- Per-agent statistics after the rate-attaching pass of calculate_stats. -/
structure FinalStats where
  total : Nat
  accepted : Nat
  rejected : Nat
  iterations : Nat
  total_iterations : Nat
  reasons : String → Nat
  acceptance_rate : ℚ
  avg_iterations : ℚ

/-- The rate-attaching pass: acceptance_rate = round(accepted/total*100, 1)
and avg_iterations = round(total_iterations/total, 2) when total > 0,
else both 0 (the else branch of the source; it divides nowhere). -/
def finalize (r : RawStats) : FinalStats :=
  { total := r.total, accepted := r.accepted, rejected := r.rejected,
    iterations := r.iterations, total_iterations := r.total_iterations,
    reasons := r.reasons,
    acceptance_rate :=
      if 0 < r.total then py_round1 ((r.accepted : ℚ) / r.total * 100) else 0,
    avg_iterations :=
      if 0 < r.total then py_round2 ((r.total_iterations : ℚ) / r.total) else 0 }

/-- The result shape of calculate_stats: total = len(entries) and the
per-agent mapping (the period_days constant of the source is omitted,
no claim mentions it).  The early return for an empty entry list yields
the same total 0 and empty agents mapping as the general path. -/
structure Stats where
  total : Nat
  agents : List (String × FinalStats)

def calculate_stats (es : List FeedbackEntry) : Stats :=
  { total := es.length,
    agents := (es.foldl add_entry []).map (fun p => (p.1, finalize p.2)) }

/-- Association-list lookup (Python dict indexing by key). -/
def assoc_get {β : Type} : List (String × β) → String → Option β
  | [], _ => none
  | p :: ps, a => if p.1 = a then some p.2 else assoc_get ps a

end MetricsCollector

namespace WeeklyReporter

/-- The per-line treatment of weekly_reporter.load_feedback: blank lines
are skipped, parse failures are caught and skipped, a parsed entry is
kept when entry_time > cutoff. -/
def keep_line (now days : Int) : LogLine → Option FeedbackEntry
  | .blank => none
  | .corrupt => none
  | .entry e => if cutoff_of now days < e.ts then some e else none

/-- weekly_reporter.load_feedback: the corrupt-line-tolerant reader. -/
def load_feedback (now days : Int) (log : List LogLine) : List FeedbackEntry :=
  log.filterMap (keep_line now days)

end WeeklyReporter

/-- A catalog profile as consumed by the matcher and the deployer:
tech_patterns.indicators becomes a finite token set, agents.core,
agents.optional and skills keep their list order.  Fields not read by
any modelled operation (description, rules, organizer_context) are
omitted. -/
structure Profile where
  indicator_set : Finset String
  agents_core : List String
  agents_optional : List String
  skills : List String
deriving DecidableEq

namespace ProjectProfiler

/-- The structure record produced by analyze_structure; only has_db is
read by the matcher but the full boolean shape is kept.  The field named
structure in the source is called struct here (structure is a Lean
keyword). -/
structure ProjectStructure where
  has_api : Bool
  has_tests : Bool
  has_docker : Bool
  has_db : Bool
  has_frontend : Bool
  file_types : List String
deriving DecidableEq

/-- The analysis record produced by analyze_project, with the set-valued
fields (dependencies, indicators) as finite sets, matching the
set(...) conversions performed at the top of match_profiles. -/
structure Analysis where
  tech_stack : List String
  frameworks : List String
  dependencies : Finset String
  indicators : Finset String
  struct : ProjectStructure
deriving DecidableEq

/-- One entry of the ranked match list. -/
structure ProfileMatch where
  profile : String
  score : Nat
  reasons : List String
deriving DecidableEq

/-- The trading indicator vocabulary of the trading-fintech bonus rule. -/
def trading_indicators : Finset String :=
  {"ccxt", "alpaca", "trading", "arbitrage", "kalshi", "polymarket", "crypto"}

/-- The AI indicator vocabulary of the ai-ml bonus rule. -/
def ai_indicators : Finset String :=
  {"anthropic", "openai", "langchain", "llm", "embedding"}

/-- Python joins set elements in iteration order; the model fixes the
order to be lexicographic, which only affects reason strings. -/
def join_sorted (s : Finset String) : String :=
  String.intercalate ", " (s.sort (fun x y => x ≤ y))

/-- The name-keyed bonus chain of match_profiles (the if/elif ladder).
Each arm is guarded by the profile name, so at most one arm applies. -/
def bonus_score (name : String) (a : Analysis) : Nat :=
  if name = "nextjs-frontend" ∧ "Next.js" ∈ a.frameworks then 50
  else if name = "python-backend" ∧ "Python" ∈ a.tech_stack then
    if "FastAPI" ∈ a.frameworks ∨ "Flask" ∈ a.frameworks ∨ "Django" ∈ a.frameworks
    then 40 else 20
  else if name = "trading-fintech" then 30 * (a.indicators ∩ trading_indicators).card
  else if name = "ai-ml" then
    if 0 < (a.indicators ∩ ai_indicators).card then 50 else 0
  else if name = "fullstack" then
    if "Next.js" ∈ a.frameworks ∧ a.struct.has_db then 45 else 0
  else 0

/-- The reasons appended by the bonus chain, mirroring bonus_score. -/
def bonus_reasons (name : String) (a : Analysis) : List String :=
  if name = "nextjs-frontend" ∧ "Next.js" ∈ a.frameworks then ["Next.js detected"]
  else if name = "python-backend" ∧ "Python" ∈ a.tech_stack then
    if "FastAPI" ∈ a.frameworks ∨ "Flask" ∈ a.frameworks ∨ "Django" ∈ a.frameworks
    then ["Python web framework"] else ["Python project"]
  else if name = "trading-fintech" then
    if 0 < (a.indicators ∩ trading_indicators).card
    then ["trading: " ++ join_sorted (a.indicators ∩ trading_indicators)] else []
  else if name = "ai-ml" then
    if 0 < (a.indicators ∩ ai_indicators).card then ["AI/ML indicators"] else []
  else if name = "fullstack" then
    if "Next.js" ∈ a.frameworks ∧ a.struct.has_db then ["fullstack patterns"] else []
  else []

/-- The additive score of one profile before the final clamp:
20 per matched indicator, 15 per profile indicator literally present in
the dependency set, plus the name-keyed bonus.  The required_any block
of the source is a no-op (pass) and is omitted. -/
def profile_score (a : Analysis) (name : String) (p : Profile) : Nat :=
  20 * (a.indicators ∩ p.indicator_set).card
    + 15 * (p.indicator_set ∩ a.dependencies).card
    + bonus_score name a

/-- The reasons list accumulated while scoring one profile. -/
def profile_reasons (a : Analysis) (name : String) (p : Profile) : List String :=
  (if 0 < (a.indicators ∩ p.indicator_set).card
   then ["indicators: " ++ join_sorted (a.indicators ∩ p.indicator_set)] else [])
    ++ bonus_reasons name a

/-- The reported score of one profile: min(score, 100), the final clamp. -/
def clamped_score (a : Analysis) (name : String) (p : Profile) : Nat :=
  min (profile_score a name p) 100

/-- The unsorted match list: one entry per profile with positive score,
in registry iteration order, score clamped with min(score, 100). -/
def raw_matches (a : Analysis) (ps : List (String × Profile)) : List ProfileMatch :=
  ps.filterMap (fun np =>
    if 0 < profile_score a np.1 np.2 then
      some ⟨np.1, clamped_score a np.1 np.2, profile_reasons a np.1 np.2⟩
    else none)

/-- Insert into a descending list, placing the new element before the
first entry whose score is not larger; elements inserted earlier in the
input therefore stay in front of equal scores (the stability of the
Python sorted builtin with reverse=True). -/
def insert_desc (m : ProfileMatch) : List ProfileMatch → List ProfileMatch
  | [] => [m]
  | y :: ys => if m.score < y.score then y :: insert_desc m ys else m :: y :: ys

/-- Stable descending sort by score, the model of
sorted(matches, key=lambda x: x["score"], reverse=True). -/
def sort_desc : List ProfileMatch → List ProfileMatch
  | [] => []
  | x :: xs => insert_desc x (sort_desc xs)

/-- project_profiler.match_profiles. -/
def match_profiles (a : Analysis) (ps : List (String × Profile)) : List ProfileMatch :=
  sort_desc (raw_matches a ps)

end ProjectProfiler

namespace Deployer

/-- find_agent and find_skill search an ordered list of catalog
locations and return the first hit; each location is itself a map from
artifact name to the content that a copy from there would produce.
Absence everywhere yields none. -/
def find_artifact (locs : List (String → Option String)) (name : String) : Option String :=
  match locs with
  | [] => none
  | l :: ls =>
    match l name with
    | some c => some c
    | none => find_artifact ls name

/-- The evolving state of one deploy_agents or deploy_skills run:
the destination map plus the deployed, skipped and warned name lists. -/
structure DeployAcc where
  fs : String → Option String
  deployed : List String
  skipped : List String
  warnings : List String

/-- One loop iteration of deploy_agents / deploy_skills: resolve the
name in the catalog; on a hit copy it when the destination entry is
absent or force is set (recording deployed), otherwise record skipped;
on a miss record a not-found warning.  For skills the source removes an
existing destination directory before copying, which in the content map
is the same overwrite. -/
def deploy_step (locs : List (String → Option String)) (force : Bool)
    (acc : DeployAcc) (name : String) : DeployAcc :=
  match find_artifact locs name with
  | some c =>
    if acc.fs name = none ∨ force = true then
      { acc with fs := fun k => if k = name then some c else acc.fs k,
                 deployed := acc.deployed ++ [name] }
    else { acc with skipped := acc.skipped ++ [name] }
  | none => { acc with warnings := acc.warnings ++ [name] }

/-- The shared loop of deploy_agents and deploy_skills over a list of
artifact names (agents: profile.agents.core ++ profile.agents.optional;
skills: profile.skills). -/
def deploy_list (locs : List (String → Option String)) (fs : String → Option String)
    (names : List String) (force : Bool) : DeployAcc :=
  names.foldl (deploy_step locs force) ⟨fs, [], [], []⟩

/-- The metrics block of the project-profile record.  deployer.py writes
the four-counter initial shape; metrics_collector.update_project_profile
replaces it with the recomputed five-field rollup. -/
inductive Metrics where
  | initial (total_tasks accepted rejected iterations : Nat)
  | rollup (total_tasks accepted rejected : Nat) (acceptance_rate : ℚ) (last_updated : Int)
deriving DecidableEq

/-- The persisted project-profile.yaml record. -/
structure ProjectState where
  project : String
  profile : String
  created : Int
  last_sync : Int
  catalog_version : String
  deployed_agents : List String
  deployed_skills : List String
  metrics : Metrics
deriving DecidableEq

/-- deployer.create_project_profile: a complete record with the constant
zero metrics block. -/
def create_project_profile (projectName profileName : String)
    (deployed_agents deployed_skills : List String) (now : Int) : ProjectState :=
  { project := projectName, profile := profileName, created := now,
    last_sync := now, catalog_version := "1.0",
    deployed_agents := deployed_agents, deployed_skills := deployed_skills,
    metrics := .initial 0 0 0 0 }

/-- What the main deploy function produces: the success flag it returns,
the two reconciliation states, and the written project-state record
(none when the precondition check failed and nothing was written). -/
structure DeployResult where
  success : Bool
  agentsAcc : DeployAcc
  skillsAcc : DeployAcc
  state : Option ProjectState

/-- deployer.deploy.  pathExists models the existence check on the
project path (a failure returns False before any mutation).  The profile
is passed already loaded (load_profile raises for a missing profile
before this point).  The organizer generation, console printing and the
metrics-directory creation do not touch the modelled state and are
omitted. -/
def deploy (pathExists : Bool) (locsA locsS : List (String → Option String))
    (fsA fsS : String → Option String) (projectName profileName : String)
    (p : Profile) (force : Bool) (now : Int) : DeployResult :=
  match pathExists with
  | true =>
    let ra := deploy_list locsA fsA (p.agents_core ++ p.agents_optional) force
    let rs := deploy_list locsS fsS p.skills force
    { success := true, agentsAcc := ra, skillsAcc := rs,
      state := some (create_project_profile projectName profileName
        (ra.deployed ++ ra.skipped) (rs.deployed ++ rs.skipped) now) }
  | false =>
    { success := false, agentsAcc := ⟨fsA, [], [], []⟩,
      skillsAcc := ⟨fsS, [], [], []⟩, state := none }

end Deployer

namespace MetricsCollector

/-- metrics_collector.update_project_profile: reload the 30-day window
with this module's own load_feedback (so a corrupt line aborts it too),
recompute the totals from calculate_stats, and replace the metrics block
of the record wholesale.  The early return when no project-profile file
exists is outside the model: the record is passed in. -/
def update_project_profile (now : Int) (log : List LogLine)
    (ps : Deployer.ProjectState) : Except String Deployer.ProjectState :=
  match load_feedback now 30 log with
  | .error m => .error m
  | .ok entries =>
    let stats := calculate_stats entries
    let total_accepted := (stats.agents.map (fun p => p.2.accepted)).sum
    let total_tasks := stats.total
    .ok { ps with metrics := (Deployer.Metrics.rollup total_tasks total_accepted
      ((stats.agents.map (fun p => p.2.rejected)).sum)
      (py_round1 (if 0 < total_tasks then (total_accepted : ℚ) / total_tasks * 100 else 0))
      now) }

end MetricsCollector

namespace MetricsCollector

/-- Specification-side count of accepted events. -/
def count_accepted : List FeedbackEntry → Nat
  | [] => 0
  | e :: es => (if e.outcome = "accepted" then 1 else 0) + count_accepted es

/-- Specification-side count of rejected events. -/
def count_rejected : List FeedbackEntry → Nat
  | [] => 0
  | e :: es => (if e.outcome = "rejected" then 1 else 0) + count_rejected es

/-- Specification-side count of rejected events carrying a given reason. -/
def count_reason (s : String) : List FeedbackEntry → Nat
  | [] => 0
  | e :: es =>
    (if e.outcome = "rejected" ∧ e.reason = some s then 1 else 0) + count_reason s es

/-- Sum of one counter over the grouped per-agent statistics. -/
def sum_field (g : RawStats → Nat) (m : List (String × RawStats)) : Nat :=
  (m.map (fun p => g p.2)).sum

/-- The spec scenario: accepted, rejected with reason, accepted. -/
def c4_entries : List FeedbackEntry := [
  ⟨1, "X", "t1", "accepted", 1, none, none⟩,
  ⟨2, "X", "t2", "rejected", 1, some "wrong approach", none⟩,
  ⟨3, "X", "t3", "accepted", 1, none, none⟩ ]

end MetricsCollector

namespace Deployer

/-- Concrete inputs exercising the reconciliation loop. -/
def c3locsA : List (String → Option String) :=
  [fun n => if n = "a1" then some "A" else none]

def c3locsS : List (String → Option String) :=
  [fun n => if n = "s1" then some "S" else none]

def c3P : Profile := ⟨∅, ["a1", "ghost"], [], ["s1"]⟩

def c3d1 : DeployResult :=
  deploy true c3locsA c3locsS (fun _ => none) (fun _ => none) "p" "pr" c3P false 5

def c3d2 : DeployResult :=
  deploy true c3locsA c3locsS c3d1.agentsAcc.fs c3d1.skillsAcc.fs "p" "pr" c3P false 6

def c3s1 : ProjectState :=
  ⟨"p", "pr", 5, 5, "1.0", ["a1"], ["s1"], .initial 0 0 0 0⟩

def c3s2 : ProjectState :=
  ⟨"p", "pr", 6, 6, "1.0", ["a1"], ["s1"], .initial 0 0 0 0⟩

def c10_locs : List (String → Option String) := [fun n => if n = "d" then some "D" else none]

def c10_profile : Profile := ⟨∅, ["d", "d"], [], []⟩

end Deployer

def c5_in : FeedbackEntry := ⟨395201, "X", "t", "accepted", 1, none, none⟩
def c5_boundary : FeedbackEntry := ⟨395200, "X", "t", "accepted", 1, none, none⟩
def c5_log : List LogLine := [.entry c5_in, .entry c5_boundary]

def c2_entry : FeedbackEntry := ⟨999999, "X", "t", "accepted", 1, none, none⟩
def c2_log : List LogLine := [.entry c2_entry, .corrupt]

def c6A : ProjectProfiler.Analysis :=
  ⟨["Python"], [], {"fastapi"}, {"anthropic"}, ⟨false, false, false, false, false, []⟩⟩

def c6P : Profile := ⟨∅, ["a1"], [], []⟩

def c7P : Profile := ⟨{"trading"}, [], [], []⟩

def c1_entry : FeedbackEntry := ⟨999999, "X", "t", "accepted", 1, none, none⟩

def c1_log : List LogLine := [.entry c1_entry]

def c1_ps : Deployer.ProjectState := Deployer.create_project_profile "proj" "prof" [] [] 0

/-- The total_tasks field of either metrics shape. -/
def metrics_total : Deployer.Metrics → Nat
  | .initial t _ _ _ => t
  | .rollup t _ _ _ _ => t

namespace MetricsCollector

theorem reason_upd_apply (f : String → Nat) (o : Option String) (s : String) (hs : s ≠ "") :
    reason_upd f o s = f s + (if o = some s then 1 else 0) := by
  cases o with
  | none => simp [reason_upd]
  | some t =>
    simp only [reason_upd]
    by_cases ht : t = ""
    · subst ht
      simp [Ne.symm hs]
    · simp only [bump, if_neg ht, Option.some_inj]
      by_cases hst : s = t
      · subst hst; simp
      · simp [hst, Ne.symm hst]

theorem upd_raw_total (r : RawStats) (e : FeedbackEntry) :
    (upd_raw r e).total = r.total + 1 := by
  simp only [upd_raw]
  split_ifs <;> rfl

theorem upd_raw_accepted (r : RawStats) (e : FeedbackEntry) :
    (upd_raw r e).accepted = r.accepted + (if e.outcome = "accepted" then 1 else 0) := by
  by_cases h1 : e.outcome = "accepted"
  · simp [upd_raw, h1]
  · by_cases h2 : e.outcome = "rejected"
    · simp [upd_raw, h1, h2]
    · by_cases h3 : e.outcome = "iteration" <;> simp [upd_raw, h1, h2, h3]

theorem upd_raw_rejected (r : RawStats) (e : FeedbackEntry) :
    (upd_raw r e).rejected = r.rejected + (if e.outcome = "rejected" then 1 else 0) := by
  by_cases h1 : e.outcome = "accepted"
  · simp [upd_raw, h1, h1 ▸ (by decide : ("accepted":String) ≠ "rejected")]
  · by_cases h2 : e.outcome = "rejected"
    · simp [upd_raw, h1, h2]
    · by_cases h3 : e.outcome = "iteration" <;> simp [upd_raw, h1, h2, h3]

theorem upd_raw_reasons (r : RawStats) (e : FeedbackEntry) (s : String) (hs : s ≠ "") :
    (upd_raw r e).reasons s
      = r.reasons s + (if e.outcome = "rejected" ∧ e.reason = some s then 1 else 0) := by
  by_cases h1 : e.outcome = "accepted"
  · simp [upd_raw, h1, h1 ▸ (by decide : ("accepted":String) ≠ "rejected")]
  · by_cases h2 : e.outcome = "rejected"
    · simp [upd_raw, h1, h2, reason_upd_apply _ _ _ hs]
    · by_cases h3 : e.outcome = "iteration" <;> simp [upd_raw, h1, h2, h3]

theorem upd_raw_reasons_empty (r : RawStats) (e : FeedbackEntry) :
    (upd_raw r e).reasons "" = r.reasons "" := by
  have hr : ∀ f, reason_upd f e.reason "" = f "" := by
    intro f
    cases hx : e.reason with
    | none => rfl
    | some t =>
      simp only [reason_upd]
      split_ifs with ht
      · rfl
      · simp [bump, Ne.symm ht]
  by_cases h1 : e.outcome = "accepted"
  · simp [upd_raw, h1]
  · by_cases h2 : e.outcome = "rejected"
    · simp [upd_raw, h1, h2, hr]
    · by_cases h3 : e.outcome = "iteration" <;> simp [upd_raw, h1, h2, h3]

end MetricsCollector

namespace MetricsCollector

theorem fold_upd_total : ∀ (es : List FeedbackEntry) (r : RawStats),
    (es.foldl upd_raw r).total = r.total + es.length := by
  intro es
  induction es with
  | nil => intro r; simp
  | cons e es ih =>
    intro r
    simp only [List.foldl_cons, ih, upd_raw_total, List.length_cons]
    omega

theorem fold_upd_accepted : ∀ (es : List FeedbackEntry) (r : RawStats),
    (es.foldl upd_raw r).accepted = r.accepted + count_accepted es := by
  intro es
  induction es with
  | nil => intro r; simp [count_accepted]
  | cons e es ih =>
    intro r
    simp only [List.foldl_cons, ih, upd_raw_accepted, count_accepted]
    omega

theorem fold_upd_rejected : ∀ (es : List FeedbackEntry) (r : RawStats),
    (es.foldl upd_raw r).rejected = r.rejected + count_rejected es := by
  intro es
  induction es with
  | nil => intro r; simp [count_rejected]
  | cons e es ih =>
    intro r
    simp only [List.foldl_cons, ih, upd_raw_rejected, count_rejected]
    omega

theorem fold_upd_reasons (s : String) (hs : s ≠ "") : ∀ (es : List FeedbackEntry) (r : RawStats),
    (es.foldl upd_raw r).reasons s = r.reasons s + count_reason s es := by
  intro es
  induction es with
  | nil => intro r; simp [count_reason]
  | cons e es ih =>
    intro r
    simp only [List.foldl_cons, ih, upd_raw_reasons _ _ _ hs, count_reason]
    omega

theorem fold_upd_reasons_empty : ∀ (es : List FeedbackEntry) (r : RawStats),
    (es.foldl upd_raw r).reasons "" = r.reasons "" := by
  intro es
  induction es with
  | nil => intro r; rfl
  | cons e es ih =>
    intro r
    simp only [List.foldl_cons, ih, upd_raw_reasons_empty]

theorem foldl_add_entry_single (X : String) :
    ∀ (es : List FeedbackEntry) (r : RawStats), (∀ e ∈ es, e.agent = X) →
      es.foldl add_entry [(X, r)] = [(X, es.foldl upd_raw r)] := by
  intro es
  induction es with
  | nil => intro r _; rfl
  | cons e es ih =>
    intro r h
    have he : e.agent = X := h e (List.mem_cons_self e es)
    have hm : e.agent ∈ ([(X, r)].map Prod.fst) := by simp [he]
    have step : add_entry [(X, r)] e = [(X, upd_raw r e)] := by
      simp [add_entry, hm, he]
    simp only [List.foldl_cons, step]
    exact ih (upd_raw r e) (fun x hx => h x (List.mem_cons_of_mem e hx))

theorem grouped_single (X : String) (es : List FeedbackEntry)
    (h : ∀ e ∈ es, e.agent = X) (hne : es ≠ []) :
    es.foldl add_entry [] = [(X, es.foldl upd_raw initRaw)] := by
  cases es with
  | nil => exact absurd rfl hne
  | cons e es =>
    have he : e.agent = X := h e (List.mem_cons_self e es)
    have h1 : add_entry [] e = [(X, upd_raw initRaw e)] := by
      simp [add_entry, he]
    simp only [List.foldl_cons, h1]
    exact foldl_add_entry_single X es (upd_raw initRaw e)
      (fun x hx => h x (List.mem_cons_of_mem e hx))

end MetricsCollector

namespace MetricsCollector

/-- Claim C4: for a feedback sequence of N events all for one agent X of
which k are accepted, calculate_stats yields total = N, accepted = k and
acceptance_rate = round(100k/N, 1); for N = 0 the grouped map is empty
and the rate-attaching else branch yields 0 with no division performed;
only rejected events carrying a non-empty reason contribute to the
per-reason occurrence counts. -/
theorem calculate_stats_single_agent (es : List FeedbackEntry) (X : String)
    (h : ∀ e ∈ es, e.agent = X) :
    (es = [] → (calculate_stats es).agents = []) ∧
    (es ≠ [] → ∃ s, assoc_get (calculate_stats es).agents X = some s ∧
      s.total = es.length ∧
      s.accepted = count_accepted es ∧
      s.rejected = count_rejected es ∧
      s.acceptance_rate = py_round1 (100 * (count_accepted es : ℚ) / (es.length : ℚ)) ∧
      (∀ r, r ≠ "" → s.reasons r = count_reason r es) ∧
      s.reasons "" = 0) ∧
    (∀ r : RawStats, r.total = 0 → (finalize r).acceptance_rate = 0) := by
  refine ⟨?_, ?_, ?_⟩
  · intro he; subst he; rfl
  · intro hne
    have hg := grouped_single X es h hne
    refine ⟨finalize (es.foldl upd_raw initRaw), ?_, ?_, ?_, ?_, ?_, ?_, ?_⟩
    · simp [calculate_stats, hg, assoc_get]
    · simp [finalize, fold_upd_total, initRaw]
    · simp [finalize, fold_upd_accepted, initRaw]
    · simp [finalize, fold_upd_rejected, initRaw]
    · have hpos : 0 < es.length := List.length_pos.mpr hne
      have htot : (es.foldl upd_raw initRaw).total = es.length := by
        simp [fold_upd_total, initRaw]
      have hacc : (es.foldl upd_raw initRaw).accepted = count_accepted es := by
        simp [fold_upd_accepted, initRaw]
      simp only [finalize, htot, hacc, if_pos hpos]
      congr 1
      ring
    · intro r hr
      simp [finalize, fold_upd_reasons r hr, initRaw]
    · simp [finalize, fold_upd_reasons_empty, initRaw]
  · intro r h0
    simp [finalize, h0]

/-- Witness for claim C4 at the spec scenario (accepted, rejected with
reason wrong approach, accepted): total 3, accepted 2, rejected 1,
acceptance_rate 66.7, one occurrence of the reason. -/
theorem calculate_stats_single_agent_witness :
    (∀ e ∈ c4_entries, e.agent = "X") ∧
    (∃ s, assoc_get (calculate_stats c4_entries).agents "X" = some s ∧
      s.total = c4_entries.length ∧
      s.accepted = count_accepted c4_entries ∧
      s.rejected = count_rejected c4_entries ∧
      s.acceptance_rate = py_round1 (100 * (count_accepted c4_entries : ℚ) / (c4_entries.length : ℚ)) ∧
      (∀ r, r ≠ "" → s.reasons r = count_reason r c4_entries) ∧
      s.reasons "" = 0) ∧
    c4_entries.length = 3 ∧ count_accepted c4_entries = 2 ∧ count_rejected c4_entries = 1 ∧
    count_reason "wrong approach" c4_entries = 1 ∧
    py_round1 (100 * (2 : ℚ) / (3 : ℚ)) = 667/10 :=
  ⟨by decide, (calculate_stats_single_agent c4_entries "X" (by decide)).2.1 (by decide),
   by decide, by decide, by decide, by decide, by norm_num [py_round1, round_half_even]⟩

end MetricsCollector

theorem mc_load_eq_of_ok (now days : Int) : ∀ (log : List LogLine) (es : List FeedbackEntry),
    MetricsCollector.load_feedback now days log = .ok es →
    es = WeeklyReporter.load_feedback now days log := by
  intro log
  induction log with
  | nil =>
    intro es h
    simp only [MetricsCollector.load_feedback] at h
    cases h
    rfl
  | cons l rest ih =>
    intro es h
    cases l with
    | blank =>
      simp only [MetricsCollector.load_feedback] at h
      simpa [WeeklyReporter.load_feedback, List.filterMap_cons, WeeklyReporter.keep_line]
        using ih es h
    | corrupt => simp [MetricsCollector.load_feedback] at h
    | entry e2 =>
      simp only [MetricsCollector.load_feedback] at h
      cases hrest : MetricsCollector.load_feedback now days rest with
      | error m => rw [hrest] at h; cases h
      | ok es2 =>
        rw [hrest] at h
        cases h
        have hw := ih es2 hrest
        simp only [WeeklyReporter.load_feedback] at hw
        by_cases hc : cutoff_of now days < e2.ts <;>
          simp [WeeklyReporter.load_feedback, List.filterMap_cons, WeeklyReporter.keep_line,
            hc, hw]

theorem wk_load_mem_iff (now days : Int) (log : List LogLine) (e : FeedbackEntry)
    (h : LogLine.entry e ∈ log) :
    e ∈ WeeklyReporter.load_feedback now days log ↔ cutoff_of now days < e.ts := by
  constructor
  · intro hm
    rcases List.mem_filterMap.mp hm with ⟨l, _, hkeep⟩
    cases l with
    | blank => simp [WeeklyReporter.keep_line] at hkeep
    | corrupt => simp [WeeklyReporter.keep_line] at hkeep
    | entry e2 =>
      by_cases hc : cutoff_of now days < e2.ts
      · simp only [WeeklyReporter.keep_line, if_pos hc, Option.some_inj] at hkeep
        subst hkeep; exact hc
      · simp [WeeklyReporter.keep_line, hc] at hkeep
  · intro hts
    exact List.mem_filterMap.mpr ⟨.entry e, h, by simp [WeeklyReporter.keep_line, hts]⟩

/-- Claim C5: for every event in the feedback log, load with a window of
days includes the event iff its timestamp is strictly after the cutoff
now - days; an event whose timestamp equals the cutoff exactly is
excluded.  Stated for the weekly reporter reader and, whenever it
returns at all, for the metrics collector reader. -/
theorem load_feedback_window (now days : Int) (log : List LogLine) (e : FeedbackEntry)
    (h : LogLine.entry e ∈ log) :
    (e ∈ WeeklyReporter.load_feedback now days log ↔ cutoff_of now days < e.ts) ∧
    (∀ es, MetricsCollector.load_feedback now days log = .ok es →
      (e ∈ es ↔ cutoff_of now days < e.ts)) := by
  refine ⟨wk_load_mem_iff now days log e h, ?_⟩
  intro es hok
  rw [mc_load_eq_of_ok now days log es hok]
  exact wk_load_mem_iff now days log e h

/-- Witness for claim C5: a log with one event one second after the
cutoff and one exactly at the cutoff; only the former is loaded. -/
theorem load_feedback_window_witness :
    LogLine.entry c5_in ∈ c5_log ∧
    ((c5_in ∈ WeeklyReporter.load_feedback 1000000 7 c5_log ↔
        cutoff_of 1000000 7 < c5_in.ts) ∧
      (∀ es, MetricsCollector.load_feedback 1000000 7 c5_log = .ok es →
        (c5_in ∈ es ↔ cutoff_of 1000000 7 < c5_in.ts))) ∧
    cutoff_of 1000000 7 = 395200 ∧
    WeeklyReporter.load_feedback 1000000 7 c5_log = [c5_in] :=
  ⟨by decide, load_feedback_window 1000000 7 c5_log c5_in (by decide), by decide, by decide⟩

/-- Claim C2 (code-bug evidence): on a log holding one well-formed event
inside the window followed by a corrupt line, the metrics collector
load_feedback aborts with the parse error and returns no events, while
the weekly reporter load_feedback returns the well-formed event; the
first behaviour contradicts the never-abort contract of the spec. -/
theorem load_feedback_corrupt_aborts :
    MetricsCollector.load_feedback 1000000 7 c2_log = .error "json.JSONDecodeError" ∧
    WeeklyReporter.load_feedback 1000000 7 c2_log = [c2_entry] :=
  ⟨rfl, rfl⟩

namespace Deployer

theorem mem_union_foldl (locs : List (String → Option String)) (force : Bool) :
    ∀ (names : List String) (acc : DeployAcc) (x : String),
      (x ∈ (names.foldl (deploy_step locs force) acc).deployed ∨
        x ∈ (names.foldl (deploy_step locs force) acc).skipped) ↔
      ((x ∈ acc.deployed ∨ x ∈ acc.skipped) ∨
        (x ∈ names ∧ (find_artifact locs x).isSome)) := by
  intro names
  induction names with
  | nil => intro acc x; simp
  | cons n rest ih =>
    intro acc x
    rw [List.foldl_cons]
    cases hn : find_artifact locs n with
    | none =>
      simp only [deploy_step, hn]
      rw [ih]
      have hxn : x = n → ¬(find_artifact locs x).isSome := by
        intro h; rw [h, hn]; simp
      simp only [List.mem_cons]
      tauto
    | some c =>
      simp only [deploy_step, hn]
      have hxs : x = n → (find_artifact locs x).isSome := by
        intro h; rw [h, hn]; rfl
      split_ifs with hcond
      · rw [ih]
        simp only [List.mem_append, List.mem_singleton, List.mem_cons]
        tauto
      · rw [ih]
        simp only [List.mem_append, List.mem_singleton, List.mem_cons]
        tauto

theorem mem_warnings_foldl (locs : List (String → Option String)) (force : Bool) :
    ∀ (names : List String) (acc : DeployAcc) (x : String),
      (x ∈ acc.warnings ∨ (x ∈ names ∧ find_artifact locs x = none)) →
      x ∈ (names.foldl (deploy_step locs force) acc).warnings := by
  intro names
  induction names with
  | nil => intro acc x h; simpa using h
  | cons n rest ih =>
    intro acc x h
    rw [List.foldl_cons]
    cases hn : find_artifact locs n with
    | none =>
      apply ih
      simp only [deploy_step, hn]
      simp only [List.mem_append, List.mem_singleton, List.mem_cons] at h ⊢
      rcases h with h | ⟨hx, hfx⟩
      · left; left; exact h
      · rcases hx with rfl | hx
        · left; simp
        · right; exact ⟨hx, hfx⟩
    | some c =>
      apply ih
      have hwar : ∀ b : DeployAcc, b.warnings = acc.warnings →
          (x ∈ b.warnings ∨ (x ∈ rest ∧ find_artifact locs x = none)) := by
        intro b hb
        rw [hb]
        simp only [List.mem_cons] at h
        rcases h with h | ⟨hx, hfx⟩
        · left; exact h
        · rcases hx with rfl | hx
          · rw [hn] at hfx; cases hfx
          · right; exact ⟨hx, hfx⟩
      simp only [deploy_step, hn]
      split_ifs with hcond
      · exact hwar _ rfl
      · exact hwar _ rfl

theorem fs_isSome_foldl (locs : List (String → Option String)) (force : Bool) :
    ∀ (names : List String) (acc : DeployAcc) (k : String),
      (acc.fs k).isSome →
      ((names.foldl (deploy_step locs force) acc).fs k).isSome := by
  intro names
  induction names with
  | nil => intro acc k h; exact h
  | cons n rest ih =>
    intro acc k h
    rw [List.foldl_cons]
    apply ih
    cases hn : find_artifact locs n with
    | none => simpa [deploy_step, hn] using h
    | some c =>
      simp only [deploy_step, hn]
      split_ifs with hcond
      · by_cases hk : k = n <;> simp [hk, h]
      · exact h

theorem fs_resolved_isSome_foldl (locs : List (String → Option String)) (force : Bool) :
    ∀ (names : List String) (acc : DeployAcc) (x : String),
      x ∈ names → (find_artifact locs x).isSome →
      ((names.foldl (deploy_step locs force) acc).fs x).isSome := by
  intro names
  induction names with
  | nil => intro acc x h; cases h
  | cons n rest ih =>
    intro acc x hx hfs
    rw [List.foldl_cons]
    rcases List.mem_cons.mp hx with rfl | hx
    · apply fs_isSome_foldl
      cases hn : find_artifact locs x with
      | none => rw [hn] at hfs; cases hfs
      | some c =>
        simp only [deploy_step, hn]
        split_ifs with hcond
        · simp
        · rcases hcond2 : acc.fs x with _ | c2
          · exact absurd (Or.inl hcond2) hcond
          · simp [hcond2]
    · exact ih _ x hx hfs

theorem foldl_noop_of_present (locs : List (String → Option String)) :
    ∀ (names : List String) (acc : DeployAcc),
      (∀ n ∈ names, (find_artifact locs n).isSome → (acc.fs n).isSome) →
      (names.foldl (deploy_step locs false) acc).fs = acc.fs ∧
      (names.foldl (deploy_step locs false) acc).deployed = acc.deployed := by
  intro names
  induction names with
  | nil => intro acc _; exact ⟨rfl, rfl⟩
  | cons n rest ih =>
    intro acc h
    rw [List.foldl_cons]
    cases hn : find_artifact locs n with
    | none =>
      have := ih { acc with warnings := acc.warnings ++ [n] }
        (fun m hm hfm => h m (List.mem_cons_of_mem n hm) hfm)
      simpa [deploy_step, hn] using this
    | some c =>
      have hpres : (acc.fs n).isSome := h n (List.mem_cons_self n rest) (by rw [hn]; rfl)
      have hcond : acc.fs n ≠ none := by
        rcases hx : acc.fs n with _ | c2
        · rw [hx] at hpres; cases hpres
        · simp
      have := ih { acc with skipped := acc.skipped ++ [n] }
        (fun m hm hfm => h m (List.mem_cons_of_mem n hm) hfm)
      simpa [deploy_step, hn, hcond] using this

theorem length_partition_foldl (locs : List (String → Option String)) (force : Bool) :
    ∀ (names : List String) (acc : DeployAcc),
      (names.foldl (deploy_step locs force) acc).deployed.length +
        (names.foldl (deploy_step locs force) acc).skipped.length =
      acc.deployed.length + acc.skipped.length +
        (names.filter (fun n => (find_artifact locs n).isSome)).length := by
  intro names
  induction names with
  | nil => intro acc; simp
  | cons n rest ih =>
    intro acc
    rw [List.foldl_cons]
    cases hn : find_artifact locs n with
    | none =>
      rw [ih]
      simp [deploy_step, hn, List.filter_cons]
    | some c =>
      simp only [deploy_step, hn]
      split_ifs with hcond
      · rw [ih]
        simp [List.filter_cons, hn]
        omega
      · rw [ih]
        simp [List.filter_cons, hn]
        omega

end Deployer

namespace Deployer

theorem disjoint_foldl (locs : List (String → Option String)) (force : Bool) :
    ∀ (names : List String) (acc : DeployAcc), names.Nodup →
      (∀ x ∈ names, x ∉ acc.deployed ∧ x ∉ acc.skipped) →
      (∀ x, ¬(x ∈ acc.deployed ∧ x ∈ acc.skipped)) →
      ∀ x, ¬(x ∈ (names.foldl (deploy_step locs force) acc).deployed ∧
        x ∈ (names.foldl (deploy_step locs force) acc).skipped) := by
  intro names
  induction names with
  | nil => intro acc _ _ hdisj x; exact hdisj x
  | cons n rest ih =>
    intro acc hnodup hfresh hdisj x
    rw [List.foldl_cons]
    obtain ⟨hnin, hrest⟩ := List.nodup_cons.mp hnodup
    cases hn : find_artifact locs n with
    | none =>
      simp only [deploy_step, hn]
      refine ih { acc with warnings := acc.warnings ++ [n] } hrest ?_ ?_ x
      · intro y hy
        exact hfresh y (List.mem_cons_of_mem n hy)
      · exact hdisj
    | some c =>
      simp only [deploy_step, hn]
      split_ifs with hcond
      · refine ih _ hrest ?_ ?_ x
        · intro y hy
          have hyn : y ≠ n := fun h => hnin (h ▸ hy)
          have := hfresh y (List.mem_cons_of_mem n hy)
          simp only [List.mem_append, List.mem_singleton]
          exact ⟨fun h => h.elim this.1 hyn, this.2⟩
        · intro y hy
          simp only [List.mem_append, List.mem_singleton] at hy
          rcases hy with ⟨hy1 | rfl, hy2⟩
          · exact hdisj y ⟨hy1, hy2⟩
          · exact (hfresh y (List.mem_cons_self y rest)).2 hy2
      · refine ih _ hrest ?_ ?_ x
        · intro y hy
          have hyn : y ≠ n := fun h => hnin (h ▸ hy)
          have := hfresh y (List.mem_cons_of_mem n hy)
          simp only [List.mem_append, List.mem_singleton]
          exact ⟨this.1, fun h => h.elim this.2 hyn⟩
        · intro y hy
          simp only [List.mem_append, List.mem_singleton] at hy
          rcases hy with ⟨hy1, hy2 | rfl⟩
          · exact hdisj y ⟨hy1, hy2⟩
          · exact (hfresh y (List.mem_cons_self y rest)).1 hy1

/-- Claim C3: invoking deploy twice with identical inputs and force
false yields identical deployed_agents and deployed_skills sets in the
resulting ProjectState, and the second invocation leaves the whole
destination content map of both categories unchanged, so no artifact
already present is modified. -/
theorem deploy_idempotent_no_force (locsA locsS : List (String → Option String))
    (fsA fsS : String → Option String) (pn prn : String) (p : Profile) (now now2 : Int)
    (d1 d2 : DeployResult)
    (h1 : d1 = deploy true locsA locsS fsA fsS pn prn p false now)
    (h2 : d2 = deploy true locsA locsS d1.agentsAcc.fs d1.skillsAcc.fs pn prn p false now2)
    (s1 s2 : ProjectState) (hs1 : d1.state = some s1) (hs2 : d2.state = some s2) :
    s1.deployed_agents.toFinset = s2.deployed_agents.toFinset ∧
    s1.deployed_skills.toFinset = s2.deployed_skills.toFinset ∧
    d2.agentsAcc.fs = d1.agentsAcc.fs ∧
    d2.skillsAcc.fs = d1.skillsAcc.fs := by
  subst h1
  subst h2
  simp only [deploy, Option.some_inj] at hs1 hs2
  have hsetA : ∀ (fs : String → Option String) (x : String),
      x ∈ (deploy_list locsA fs (p.agents_core ++ p.agents_optional) false).deployed ++
        (deploy_list locsA fs (p.agents_core ++ p.agents_optional) false).skipped ↔
      (x ∈ p.agents_core ++ p.agents_optional ∧ (find_artifact locsA x).isSome) := by
    intro fs x
    rw [List.mem_append, deploy_list, mem_union_foldl]
    simp
  have hsetS : ∀ (fs : String → Option String) (x : String),
      x ∈ (deploy_list locsS fs p.skills false).deployed ++
        (deploy_list locsS fs p.skills false).skipped ↔
      (x ∈ p.skills ∧ (find_artifact locsS x).isSome) := by
    intro fs x
    rw [List.mem_append, deploy_list, mem_union_foldl]
    simp
  have hfsA : (deploy_list locsA
      (deploy_list locsA fsA (p.agents_core ++ p.agents_optional) false).fs
      (p.agents_core ++ p.agents_optional) false).fs =
      (deploy_list locsA fsA (p.agents_core ++ p.agents_optional) false).fs := by
    refine (foldl_noop_of_present locsA _ _ ?_).1
    intro n hn hfn
    exact fs_resolved_isSome_foldl locsA false _ _ n hn hfn
  have hfsS : (deploy_list locsS
      (deploy_list locsS fsS p.skills false).fs p.skills false).fs =
      (deploy_list locsS fsS p.skills false).fs := by
    refine (foldl_noop_of_present locsS _ _ ?_).1
    intro n hn hfn
    exact fs_resolved_isSome_foldl locsS false _ _ n hn hfn
  refine ⟨?_, ?_, hfsA, hfsS⟩
  · apply Finset.ext
    intro x
    rw [← hs1, ← hs2]
    simp only [create_project_profile, List.mem_toFinset]
    rw [hsetA, hsetA]
  · apply Finset.ext
    intro x
    rw [← hs1, ← hs2]
    simp only [create_project_profile, List.mem_toFinset]
    rw [hsetS, hsetS]

end Deployer

namespace Deployer

/-- Claim C9: deploying a profile naming an artifact absent from every
catalog location records a warning for that artifact, excludes it from
both the deployed and skipped lists, and deploy still returns overall
success. -/
theorem deploy_missing_artifact_warns (locsA locsS : List (String → Option String))
    (fsA fsS : String → Option String) (pn prn : String) (p : Profile) (f : Bool)
    (now : Int) (a : String) (d : DeployResult)
    (hd : d = deploy true locsA locsS fsA fsS pn prn p f now) :
    d.success = true ∧
    (a ∈ p.agents_core ++ p.agents_optional → find_artifact locsA a = none →
      a ∈ d.agentsAcc.warnings ∧ a ∉ d.agentsAcc.deployed ∧ a ∉ d.agentsAcc.skipped) ∧
    (a ∈ p.skills → find_artifact locsS a = none →
      a ∈ d.skillsAcc.warnings ∧ a ∉ d.skillsAcc.deployed ∧ a ∉ d.skillsAcc.skipped) := by
  subst hd
  refine ⟨rfl, ?_, ?_⟩
  · intro ha hnone
    refine ⟨?_, ?_, ?_⟩
    · exact mem_warnings_foldl locsA f _ _ a (Or.inr ⟨ha, hnone⟩)
    · intro hmem
      have := (mem_union_foldl locsA f _ ⟨fsA, [], [], []⟩ a).mp (Or.inl hmem)
      simp [hnone] at this
    · intro hmem
      have := (mem_union_foldl locsA f _ ⟨fsA, [], [], []⟩ a).mp (Or.inr hmem)
      simp [hnone] at this
  · intro ha hnone
    refine ⟨?_, ?_, ?_⟩
    · exact mem_warnings_foldl locsS f _ _ a (Or.inr ⟨ha, hnone⟩)
    · intro hmem
      have := (mem_union_foldl locsS f _ ⟨fsS, [], [], []⟩ a).mp (Or.inl hmem)
      simp [hnone] at this
    · intro hmem
      have := (mem_union_foldl locsS f _ ⟨fsS, [], [], []⟩ a).mp (Or.inr hmem)
      simp [hnone] at this

/-- Claim C10 (amended: the profile artifact name lists are assumed free
of duplicates): every artifact that resolves to a catalog location lands
in exactly one of the deployed or skipped lists, the two lists are
disjoint, their combined length equals the number of resolved artifacts,
and the written ProjectState fields are exactly deployed ++ skipped of
each category. -/
theorem deploy_partition_nodup (locsA locsS : List (String → Option String))
    (fsA fsS : String → Option String) (pn prn : String) (p : Profile) (f : Bool)
    (now : Int) (d : DeployResult)
    (hd : d = deploy true locsA locsS fsA fsS pn prn p f now)
    (hA : (p.agents_core ++ p.agents_optional).Nodup) (hS : p.skills.Nodup) :
    (∀ x, ¬(x ∈ d.agentsAcc.deployed ∧ x ∈ d.agentsAcc.skipped)) ∧
    (∀ x, ¬(x ∈ d.skillsAcc.deployed ∧ x ∈ d.skillsAcc.skipped)) ∧
    d.agentsAcc.deployed.length + d.agentsAcc.skipped.length =
      ((p.agents_core ++ p.agents_optional).filter
        (fun n => (find_artifact locsA n).isSome)).length ∧
    d.skillsAcc.deployed.length + d.skillsAcc.skipped.length =
      (p.skills.filter (fun n => (find_artifact locsS n).isSome)).length ∧
    (∀ x ∈ p.agents_core ++ p.agents_optional, (find_artifact locsA x).isSome →
      (x ∈ d.agentsAcc.deployed ∨ x ∈ d.agentsAcc.skipped)) ∧
    (∀ x ∈ p.skills, (find_artifact locsS x).isSome →
      (x ∈ d.skillsAcc.deployed ∨ x ∈ d.skillsAcc.skipped)) ∧
    d.state = some (create_project_profile pn prn
      (d.agentsAcc.deployed ++ d.agentsAcc.skipped)
      (d.skillsAcc.deployed ++ d.skillsAcc.skipped) now) := by
  subst hd
  refine ⟨?_, ?_, ?_, ?_, ?_, ?_, rfl⟩
  · exact disjoint_foldl locsA f _ ⟨fsA, [], [], []⟩ hA
      (fun x _ => ⟨List.not_mem_nil x, List.not_mem_nil x⟩)
      (fun x h => List.not_mem_nil x h.1)
  · exact disjoint_foldl locsS f _ ⟨fsS, [], [], []⟩ hS
      (fun x _ => ⟨List.not_mem_nil x, List.not_mem_nil x⟩)
      (fun x h => List.not_mem_nil x h.1)
  · have := length_partition_foldl locsA f (p.agents_core ++ p.agents_optional) ⟨fsA, [], [], []⟩
    simpa [deploy, deploy_list] using this
  · have := length_partition_foldl locsS f p.skills ⟨fsS, [], [], []⟩
    simpa [deploy, deploy_list] using this
  · intro x hx hfx
    have := (mem_union_foldl locsA f _ ⟨fsA, [], [], []⟩ x).mpr (Or.inr ⟨hx, hfx⟩)
    exact this
  · intro x hx hfx
    have := (mem_union_foldl locsS f _ ⟨fsS, [], [], []⟩ x).mpr (Or.inr ⟨hx, hfx⟩)
    exact this

/-- Counterexample to claim C10 as stated: a profile listing the same
resolvable agent name twice makes the first occurrence deployed and the
second skipped, so the artifact appears in both lists and they are not
disjoint. -/
theorem deploy_partition_duplicate_cex :
    "d" ∈ (deploy true c10_locs [] (fun _ => none) (fun _ => none)
      "proj" "prof" c10_profile false 0).agentsAcc.deployed ∧
    "d" ∈ (deploy true c10_locs [] (fun _ => none) (fun _ => none)
      "proj" "prof" c10_profile false 0).agentsAcc.skipped :=
  ⟨by decide, by decide⟩

end Deployer

namespace MetricsCollector

theorem map_noop_of_agent_notin (e : FeedbackEntry) :
    ∀ (ps : List (String × RawStats)), e.agent ∉ ps.map Prod.fst →
      ps.map (fun p => if p.1 = e.agent then (p.1, upd_raw p.2 e) else p) = ps := by
  intro ps
  induction ps with
  | nil => intro _; rfl
  | cons p ps ih =>
    intro h
    simp only [List.map_cons, List.mem_cons] at h
    push_neg at h
    rw [List.map_cons, if_neg (fun hq => h.1 hq.symm), ih h.2]

theorem add_entry_keys (m : List (String × RawStats)) (e : FeedbackEntry) :
    (add_entry m e).map Prod.fst =
      if e.agent ∈ m.map Prod.fst then m.map Prod.fst
      else m.map Prod.fst ++ [e.agent] := by
  simp only [add_entry]
  split_ifs with h
  · rw [List.map_map]
    apply List.map_congr_left
    intro p _
    by_cases hp : p.1 = e.agent <;> simp [hp]
  · simp

theorem add_entry_keys_nodup (m : List (String × RawStats)) (e : FeedbackEntry)
    (h : (m.map Prod.fst).Nodup) : ((add_entry m e).map Prod.fst).Nodup := by
  rw [add_entry_keys]
  split_ifs with hm
  · exact h
  · simp [List.nodup_append, h, hm]

theorem sum_field_add_entry (g : RawStats → Nat) (δ : FeedbackEntry → Nat)
    (hg : ∀ r e, g (upd_raw r e) = g r + δ e) (hg0 : g initRaw = 0)
    (e : FeedbackEntry) :
    ∀ (m : List (String × RawStats)), (m.map Prod.fst).Nodup →
      sum_field g (add_entry m e) = sum_field g m + δ e := by
  intro m
  induction m with
  | nil => intro _; simp [add_entry, sum_field, hg, hg0]
  | cons p ps ih =>
    intro hnodup
    have hnodup' : (p.1 :: ps.map Prod.fst).Nodup := by simpa using hnodup
    obtain ⟨hpnin, hps⟩ := List.nodup_cons.mp hnodup'
    by_cases hm : e.agent ∈ (p :: ps).map Prod.fst
    · simp only [add_entry, if_pos hm]
      by_cases hp : p.1 = e.agent
      · have htail : e.agent ∉ ps.map Prod.fst := hp ▸ hpnin
        rw [List.map_cons, if_pos hp, map_noop_of_agent_notin e ps htail]
        simp only [sum_field, List.map_cons, List.sum_cons, hg]
        omega
      · have hm' : e.agent ∈ ps.map Prod.fst := by
          have hm2 := hm
          rw [List.map_cons, List.mem_cons] at hm2
          rcases hm2 with h | h
          · exact absurd h.symm hp
          · exact h
        have htail := ih hps
        rw [add_entry, if_pos hm'] at htail
        rw [List.map_cons, if_neg hp]
        simp only [sum_field, List.map_cons, List.sum_cons] at htail ⊢
        omega
    · simp only [add_entry, if_neg hm]
      simp only [sum_field, List.map_append, List.sum_append, List.map_cons,
        List.sum_cons, List.map_nil, List.sum_nil, hg, hg0]
      omega

theorem sum_field_foldl (g : RawStats → Nat) (δ : FeedbackEntry → Nat)
    (hg : ∀ r e, g (upd_raw r e) = g r + δ e) (hg0 : g initRaw = 0) :
    ∀ (es : List FeedbackEntry) (m : List (String × RawStats)),
      (m.map Prod.fst).Nodup →
      sum_field g (es.foldl add_entry m) = sum_field g m + (es.map δ).sum := by
  intro es
  induction es with
  | nil => intro m _; simp
  | cons e es ih =>
    intro m hnodup
    rw [List.foldl_cons, ih (add_entry m e) (add_entry_keys_nodup m e hnodup),
      sum_field_add_entry g δ hg hg0 e m hnodup]
    simp only [List.map_cons, List.sum_cons]
    omega

theorem sum_ite_accepted : ∀ (es : List FeedbackEntry),
    (es.map (fun e => if e.outcome = "accepted" then 1 else 0)).sum = count_accepted es := by
  intro es
  induction es with
  | nil => rfl
  | cons e es ih => simp [count_accepted, ih]

theorem sum_ite_rejected : ∀ (es : List FeedbackEntry),
    (es.map (fun e => if e.outcome = "rejected" then 1 else 0)).sum = count_rejected es := by
  intro es
  induction es with
  | nil => rfl
  | cons e es ih => simp [count_rejected, ih]

theorem stats_agents_sum_accepted (es : List FeedbackEntry) :
    ((calculate_stats es).agents.map (fun p => p.2.accepted)).sum = count_accepted es := by
  have h1 : ((calculate_stats es).agents.map (fun p => p.2.accepted)).sum
      = sum_field (fun r => r.accepted) (es.foldl add_entry []) := by
    simp only [calculate_stats, List.map_map, sum_field]
    congr 1
  rw [h1, sum_field_foldl (fun r => r.accepted)
    (fun e => if e.outcome = "accepted" then 1 else 0) upd_raw_accepted rfl es [] (by simp)]
  simp [sum_field, sum_ite_accepted]

theorem stats_agents_sum_rejected (es : List FeedbackEntry) :
    ((calculate_stats es).agents.map (fun p => p.2.rejected)).sum = count_rejected es := by
  have h1 : ((calculate_stats es).agents.map (fun p => p.2.rejected)).sum
      = sum_field (fun r => r.rejected) (es.foldl add_entry []) := by
    simp only [calculate_stats, List.map_map, sum_field]
    congr 1
  rw [h1, sum_field_foldl (fun r => r.rejected)
    (fun e => if e.outcome = "rejected" then 1 else 0) upd_raw_rejected rfl es [] (by simp)]
  simp [sum_field, sum_ite_rejected]

end MetricsCollector

open Deployer in
/-- Claim C1 (amended): the ProjectState record written by deploy always
carries the constant initial metrics block (total_tasks 0, accepted 0,
rejected 0, iterations 0), independent of the Feedback Store; the
metrics recomputed from the 30-day window (total_tasks, accepted,
rejected, acceptance_rate, last_updated) are written only by the metrics
collector operation update_project_profile. -/
theorem deploy_initial_metrics_update_recomputes
    (locsA locsS : List (String → Option String)) (fsA fsS : String → Option String)
    (pn prn : String) (p : Profile) (f : Bool) (now : Int)
    (d : DeployResult) (hd : d = deploy true locsA locsS fsA fsS pn prn p f now)
    (now2 : Int) (log : List LogLine) (ps : ProjectState) (es : List FeedbackEntry)
    (hok : MetricsCollector.load_feedback now2 30 log = .ok es) :
    d.state.map ProjectState.metrics = some (Metrics.initial 0 0 0 0) ∧
    (MetricsCollector.update_project_profile now2 log ps).map ProjectState.metrics =
      .ok (Metrics.rollup es.length (MetricsCollector.count_accepted es)
        (MetricsCollector.count_rejected es)
        (py_round1 (if 0 < es.length then
          (MetricsCollector.count_accepted es : ℚ) / es.length * 100 else 0))
        now2) := by
  constructor
  · subst hd; rfl
  · simp only [MetricsCollector.update_project_profile, hok, Except.map]
    rw [MetricsCollector.stats_agents_sum_accepted, MetricsCollector.stats_agents_sum_rejected]
    rfl

namespace ProjectProfiler

theorem mem_insert_desc (m x : ProfileMatch) : ∀ (l : List ProfileMatch),
    x ∈ insert_desc m l ↔ x = m ∨ x ∈ l := by
  intro l
  induction l with
  | nil => simp [insert_desc]
  | cons y ys ih =>
    simp only [insert_desc]
    split_ifs with hc
    · simp only [List.mem_cons, ih]
      tauto
    · simp only [List.mem_cons]

theorem pairwise_insert_desc (m : ProfileMatch) :
    ∀ (l : List ProfileMatch), l.Pairwise (fun a b => b.score ≤ a.score) →
      (insert_desc m l).Pairwise (fun a b => b.score ≤ a.score) := by
  intro l
  induction l with
  | nil => intro _; simp [insert_desc]
  | cons y ys ih =>
    intro h
    obtain ⟨hy, hys⟩ := List.pairwise_cons.mp h
    simp only [insert_desc]
    split_ifs with hc
    · refine List.pairwise_cons.mpr ⟨?_, ih hys⟩
      intro z hz
      rcases (mem_insert_desc m z ys).mp hz with rfl | hz
      · exact Nat.le_of_lt hc
      · exact hy z hz
    · refine List.pairwise_cons.mpr ⟨?_, h⟩
      intro z hz
      rcases List.mem_cons.mp hz with rfl | hz
      · exact Nat.le_of_not_lt hc
      · exact Nat.le_trans (hy z hz) (Nat.le_of_not_lt hc)

theorem sort_desc_pairwise : ∀ (l : List ProfileMatch),
    (sort_desc l).Pairwise (fun a b => b.score ≤ a.score) := by
  intro l
  induction l with
  | nil => simp [sort_desc]
  | cons x xs ih => exact pairwise_insert_desc x (sort_desc xs) ih

theorem mem_sort_desc (x : ProfileMatch) : ∀ (l : List ProfileMatch),
    x ∈ sort_desc l ↔ x ∈ l := by
  intro l
  induction l with
  | nil => simp [sort_desc]
  | cons y ys ih =>
    simp only [sort_desc, mem_insert_desc, List.mem_cons, ih]

theorem filter_insert_desc_pos (m : ProfileMatch) (s : Nat) (hm : m.score = s) :
    ∀ (l : List ProfileMatch),
      (insert_desc m l).filter (fun x => x.score == s) =
        m :: l.filter (fun x => x.score == s) := by
  intro l
  induction l with
  | nil => simp [insert_desc, List.filter_cons, hm]
  | cons y ys ih =>
    simp only [insert_desc]
    split_ifs with hc
    · have hy : y.score ≠ s := ne_of_gt (hm ▸ hc)
      simp [List.filter_cons, hy, ih, hm]
    · simp [List.filter_cons, hm]

theorem filter_insert_desc_neg (m : ProfileMatch) (s : Nat) (hm : m.score ≠ s) :
    ∀ (l : List ProfileMatch),
      (insert_desc m l).filter (fun x => x.score == s) =
        l.filter (fun x => x.score == s) := by
  intro l
  induction l with
  | nil => simp [insert_desc, List.filter_cons, hm]
  | cons y ys ih =>
    simp only [insert_desc]
    split_ifs with hc
    · simp [List.filter_cons, ih]
    · simp [List.filter_cons, hm]

theorem sort_desc_filter (s : Nat) : ∀ (l : List ProfileMatch),
    (sort_desc l).filter (fun x => x.score == s) = l.filter (fun x => x.score == s) := by
  intro l
  induction l with
  | nil => rfl
  | cons x xs ih =>
    by_cases hx : x.score = s
    · rw [sort_desc, filter_insert_desc_pos x s hx (sort_desc xs), ih]
      simp [List.filter_cons, hx]
    · rw [sort_desc, filter_insert_desc_neg x s hx (sort_desc xs), ih]
      simp [List.filter_cons, hx]

end ProjectProfiler

namespace ProjectProfiler

/-- Claim C8: the match list returned by match_profiles is sorted in
descending score order, and the sublist of matches having any fixed
score equals the corresponding sublist of the unsorted registry-order
match list, so equal-score profiles keep their registry order. -/
theorem match_profiles_sorted_stable (a : Analysis) (ps : List (String × Profile)) :
    (match_profiles a ps).Pairwise (fun x y => y.score ≤ x.score) ∧
    ∀ s : Nat, (match_profiles a ps).filter (fun m => m.score == s) =
      (raw_matches a ps).filter (fun m => m.score == s) :=
  ⟨sort_desc_pairwise (raw_matches a ps), fun s => sort_desc_filter s (raw_matches a ps)⟩

/-- Claim C6: every ProfileMatch returned by match_profiles has a score
strictly greater than 0 and at most 100. -/
theorem match_profiles_score_bounds (a : Analysis) (ps : List (String × Profile))
    (m : ProfileMatch) (h : m ∈ match_profiles a ps) :
    0 < m.score ∧ m.score ≤ 100 := by
  rw [match_profiles, mem_sort_desc] at h
  rcases List.mem_filterMap.mp h with ⟨np, _, hsome⟩
  by_cases hs : 0 < profile_score a np.1 np.2
  · rw [if_pos hs, Option.some_inj] at hsome
    subst hsome
    constructor
    · exact lt_min hs (by norm_num)
    · exact min_le_right _ _
  · rw [if_neg hs] at hsome
    cases hsome

theorem bonus_score_mono (n : String) (a : Analysis) (t : String) :
    bonus_score n a ≤ bonus_score n { a with indicators := insert t a.indicators } := by
  have hsub : a.indicators ⊆ insert t a.indicators := Finset.subset_insert t a.indicators
  have htr : (a.indicators ∩ trading_indicators).card ≤
      ((insert t a.indicators) ∩ trading_indicators).card :=
    Finset.card_le_card (Finset.inter_subset_inter hsub (Finset.Subset.refl _))
  have hai : (a.indicators ∩ ai_indicators).card ≤
      ((insert t a.indicators) ∩ ai_indicators).card :=
    Finset.card_le_card (Finset.inter_subset_inter hsub (Finset.Subset.refl _))
  simp only [bonus_score]
  split_ifs <;> omega

/-- Claim C7: adding to the analysis indicator set a token not already
present that overlaps the profile indicator set never decreases the
reported (clamped) score of that profile. -/
theorem clamped_score_mono_insert (a : Analysis) (t : String) (n : String) (p : Profile)
    (h1 : t ∉ a.indicators) (h2 : t ∈ p.indicator_set) :
    clamped_score a n p ≤ clamped_score { a with indicators := insert t a.indicators } n p := by
  have hsub : a.indicators ⊆ insert t a.indicators := Finset.subset_insert t a.indicators
  have hcard : (a.indicators ∩ p.indicator_set).card ≤
      ((insert t a.indicators) ∩ p.indicator_set).card :=
    Finset.card_le_card (Finset.inter_subset_inter hsub (Finset.Subset.refl _))
  have hbonus := bonus_score_mono n a t
  have hscore : profile_score a n p ≤
      profile_score { a with indicators := insert t a.indicators } n p := by
    simp only [profile_score]
    omega
  exact min_le_min hscore (Nat.le_refl 100)

end ProjectProfiler

/-- Witness for claim C6 at a one-profile registry matching the ai-ml
bonus rule with score 50. -/
theorem match_profiles_score_bounds_witness :
    (⟨"ai-ml", 50, ["AI/ML indicators"]⟩ : ProjectProfiler.ProfileMatch) ∈
      ProjectProfiler.match_profiles c6A [("ai-ml", c6P)] ∧
    (0 < (⟨"ai-ml", 50, ["AI/ML indicators"]⟩ : ProjectProfiler.ProfileMatch).score ∧
      (⟨"ai-ml", 50, ["AI/ML indicators"]⟩ : ProjectProfiler.ProfileMatch).score ≤ 100) :=
  ⟨by decide, ProjectProfiler.match_profiles_score_bounds c6A [("ai-ml", c6P)] _ (by decide)⟩

/-- Witness for claim C7: adding the token trading to an analysis that
lacked it, against a profile whose indicator set holds it. -/
theorem clamped_score_mono_insert_witness :
    "trading" ∉ c6A.indicators ∧ "trading" ∈ c7P.indicator_set ∧
    ProjectProfiler.clamped_score c6A "z" c7P ≤
      ProjectProfiler.clamped_score
        { c6A with indicators := insert "trading" c6A.indicators } "z" c7P :=
  ⟨by decide, by decide,
    ProjectProfiler.clamped_score_mono_insert c6A "trading" "z" c7P (by decide) (by decide)⟩

namespace Deployer

/-- Witness for claim C3 at a concrete catalog with one agent, one
skill and one unresolvable name. -/
theorem deploy_idempotent_no_force_witness :
    c3d1.state = some c3s1 ∧ c3d2.state = some c3s2 ∧
    (c3s1.deployed_agents.toFinset = c3s2.deployed_agents.toFinset ∧
      c3s1.deployed_skills.toFinset = c3s2.deployed_skills.toFinset ∧
      c3d2.agentsAcc.fs = c3d1.agentsAcc.fs ∧
      c3d2.skillsAcc.fs = c3d1.skillsAcc.fs) :=
  ⟨by decide, by decide,
    deploy_idempotent_no_force c3locsA c3locsS (fun _ => none) (fun _ => none)
      "p" "pr" c3P 5 6 c3d1 c3d2 rfl rfl c3s1 c3s2 (by decide) (by decide)⟩

/-- Witness for claim C9 at a concrete profile naming the unresolvable
agent ghost. -/
theorem deploy_missing_artifact_warns_witness :
    c3d1.success = true ∧
    "ghost" ∈ c3P.agents_core ++ c3P.agents_optional ∧
    find_artifact c3locsA "ghost" = none ∧
    ("ghost" ∈ c3d1.agentsAcc.warnings ∧ "ghost" ∉ c3d1.agentsAcc.deployed ∧
      "ghost" ∉ c3d1.agentsAcc.skipped) :=
  ⟨(deploy_missing_artifact_warns c3locsA c3locsS (fun _ => none) (fun _ => none)
      "p" "pr" c3P false 5 "ghost" c3d1 rfl).1,
   by decide, by decide,
   (deploy_missing_artifact_warns c3locsA c3locsS (fun _ => none) (fun _ => none)
      "p" "pr" c3P false 5 "ghost" c3d1 rfl).2.1 (by decide) (by decide)⟩

/-- Witness for claim C10 at a concrete duplicate-free profile. -/
theorem deploy_partition_nodup_witness :
    (c3P.agents_core ++ c3P.agents_optional).Nodup ∧ c3P.skills.Nodup ∧
    ((∀ x, ¬(x ∈ c3d1.agentsAcc.deployed ∧ x ∈ c3d1.agentsAcc.skipped)) ∧
      (∀ x, ¬(x ∈ c3d1.skillsAcc.deployed ∧ x ∈ c3d1.skillsAcc.skipped)) ∧
      c3d1.agentsAcc.deployed.length + c3d1.agentsAcc.skipped.length =
        ((c3P.agents_core ++ c3P.agents_optional).filter
          (fun n => (find_artifact c3locsA n).isSome)).length ∧
      c3d1.skillsAcc.deployed.length + c3d1.skillsAcc.skipped.length =
        (c3P.skills.filter (fun n => (find_artifact c3locsS n).isSome)).length ∧
      (∀ x ∈ c3P.agents_core ++ c3P.agents_optional, (find_artifact c3locsA x).isSome →
        (x ∈ c3d1.agentsAcc.deployed ∨ x ∈ c3d1.agentsAcc.skipped)) ∧
      (∀ x ∈ c3P.skills, (find_artifact c3locsS x).isSome →
        (x ∈ c3d1.skillsAcc.deployed ∨ x ∈ c3d1.skillsAcc.skipped)) ∧
      c3d1.state = some (create_project_profile "p" "pr"
        (c3d1.agentsAcc.deployed ++ c3d1.agentsAcc.skipped)
        (c3d1.skillsAcc.deployed ++ c3d1.skillsAcc.skipped) 5)) :=
  ⟨by decide, by decide,
    deploy_partition_nodup c3locsA c3locsS (fun _ => none) (fun _ => none)
      "p" "pr" c3P false 5 c3d1 rfl (by decide) (by decide)⟩

end Deployer

/-- Counterexample to claim C1 as stated: with one accepted event inside
the 30-day window, the record written by deploy still carries
total_tasks 0 while the aggregation over the window has total 1, so the
metrics were not recomputed from the Feedback Store. -/
theorem deploy_metrics_constant_cex :
    ((Deployer.deploy true [] [] (fun _ => none) (fun _ => none) "proj" "prof"
        ⟨∅, [], [], []⟩ false 1000000).state.map
      (fun st => metrics_total st.metrics)) = some 0 ∧
    MetricsCollector.load_feedback 1000000 30 c1_log = .ok [c1_entry] ∧
    (MetricsCollector.calculate_stats [c1_entry]).total = 1 ∧ (0 : Nat) ≠ 1 :=
  ⟨rfl, rfl, rfl, by decide⟩

/-- Witness for claim C1 at a log holding one accepted event inside the
30-day window. -/
theorem deploy_initial_metrics_update_recomputes_witness :
    MetricsCollector.load_feedback 1000000 30 c1_log = .ok [c1_entry] ∧
    ((Deployer.deploy true [] [] (fun _ => none) (fun _ => none) "proj" "prof"
        ⟨∅, [], [], []⟩ false 5).state.map Deployer.ProjectState.metrics =
      some (Deployer.Metrics.initial 0 0 0 0) ∧
    (MetricsCollector.update_project_profile 1000000 c1_log c1_ps).map
        Deployer.ProjectState.metrics =
      .ok (Deployer.Metrics.rollup [c1_entry].length
        (MetricsCollector.count_accepted [c1_entry])
        (MetricsCollector.count_rejected [c1_entry])
        (py_round1 (if 0 < [c1_entry].length then
          (MetricsCollector.count_accepted [c1_entry] : ℚ) / [c1_entry].length * 100 else 0))
        1000000)) ∧
    MetricsCollector.count_accepted [c1_entry] = 1 :=
  ⟨rfl,
   deploy_initial_metrics_update_recomputes [] [] (fun _ => none) (fun _ => none)
     "proj" "prof" ⟨∅, [], [], []⟩ false 5 _ rfl 1000000 c1_log c1_ps [c1_entry] rfl,
   by decide⟩
